import Mathlib

/-!
Verification of the cellular-automaton core of `src/convay/src/main.rs`
(Conway's Game of Life demo): the synchronous two-rule update, grid resize
with index remapping, drawing-mode/pause input handling, and the plain-text
(de)serialization of grid snapshots.

Modelling conventions, all stated against the Rust source:

* The struct `GameOfLife` is embedded field by field.  The rendering field
  `grid_rect: Rect` (f32 pixel geometry, written only by `draw`) is omitted:
  no claim concerns pixel geometry, and the pointer-to-cell conversion that
  reads it is modelled at the already-floored grid-coordinate level
  (`Input.mouse`).
* The `f32` timing fields (`step_time`, `last_step_time`, `time_elapsed`)
  are modelled as exact rationals; no claim under analysis depends on
  floating-point rounding.
* `Vec<bool>` buffers are `List Bool`.  Rust's panicking index `v[i]`
  appears only at indices that are in bounds whenever the buffer-length
  invariant `WF` holds, and is rendered as `List.getD _ _ false`.
* Loop accumulations (`for` loops that only increment a counter or write
  disjoint indices of a fresh buffer) are rendered as folds or as
  `List.range`-indexed tabulations of the written buffer.
* A text file is modelled as its list of lines (`Rust text.lines()`); the
  `save_to_text` serializer emits one line per live cell, so the round trip
  through the actual newline-joined string is line-faithful.  `println!`
  diagnostics are not modelled (they do not affect automaton state).
* `str::parse::<usize>` accepts an optional leading `'+'` followed by one
  or more ASCII digits.  Machine-integer overflow of `usize` is not
  modelled (coordinates are `Nat`); every claim analysed here concerns
  coordinates far below `2^64`.
* `load_from_text` contains `line.split_once(' ').unwrap()`, which panics
  when a non-comment line contains no space.  The model returns an
  `Option`, with `none` denoting that panic.
-/

/-- `enum GridMode { Lines, Shaded, None }`. -/
inductive GridMode where
  | Lines
  | Shaded
  | None
  deriving DecidableEq

/-- `const START_SIZE: usize = 40;` -/
def START_SIZE : Nat := 40

/-- The `GameOfLife` struct (minus the render-only `grid_rect`, see the
file comment). -/
structure GameOfLife where
  rows : Nat
  cols : Nat
  cells : List Bool
  next_cells : List Bool
  reset_cells : List Bool
  step_time : ℚ
  last_step_time : ℚ
  time_elapsed : ℚ
  drawing_mode : Bool
  grid_mode : GridMode
  paused : Bool
  deriving DecidableEq

/-- Buffer-length invariant maintained by the program: every buffer holds
`rows * cols` entries and the grid is at least `1 × 1`. -/
def WF (g : GameOfLife) : Prop :=
  g.cells.length = g.rows * g.cols ∧
  g.next_cells.length = g.rows * g.cols ∧
  g.reset_cells.length = g.rows * g.cols ∧
  1 ≤ g.rows ∧ 1 ≤ g.cols

/-- The cell of `g` at `(row, col)` in row-major order: `cells[row*cols+col]`
(per `get_index`, with `x = col`, `y = row`). -/
def cellAt (g : GameOfLife) (row col : Nat) : Bool :=
  g.cells.getD (row * g.cols + col) false

/-- The reset-snapshot cell at `(row, col)`. -/
def resetAt (g : GameOfLife) (row col : Nat) : Bool :=
  g.reset_cells.getD (row * g.cols + col) false

/-- `fn get_index(&self, x: usize, y: usize) -> usize { y * self.cols + x }` -/
def get_index (g : GameOfLife) (x y : Nat) : Nat :=
  y * g.cols + x

/-- The inclusive range `a..=b` of a Rust `for` loop, as a list
(empty when `b < a`). -/
def rangeIncl (a b : Nat) : List Nat :=
  (List.range (b + 1 - a)).map (a + ·)

/-- The neighbor-counting double loop of `update_cells`: for
`n_row in row.saturating_sub(1)..=(row+1).min(rows-1)` and
`n_col in col.saturating_sub(1)..=(col+1).min(cols-1)`, skip the cell
itself and count the live cells. -/
def countNeighbors (g : GameOfLife) (row col : Nat) : Nat :=
  (rangeIncl (row - 1) (min (row + 1) (g.rows - 1))).foldl (fun neighbors n_row =>
    (rangeIncl (col - 1) (min (col + 1) (g.cols - 1))).foldl (fun neighbors n_col =>
      if n_col = col ∧ n_row = row then neighbors
      else if g.cells.getD (n_row * g.cols + n_col) false then neighbors + 1
      else neighbors) neighbors) 0

/-- The rule step of `update_cells` for one cell: keep the state on exactly
two neighbors, become alive on exactly three, die otherwise. -/
def nextCellState (g : GameOfLife) (row col : Nat) : Bool :=
  let neighbors := countNeighbors g row col
  if neighbors = 2 then g.cells.getD (row * g.cols + col) false
  else if neighbors = 3 then true
  else false

/-- `fn update_cells(&mut self)`: the double loop writes
`next_cells[row*cols+col]` for every `row < rows`, `col < cols`, reading
only `cells`; then `std::mem::swap(&mut self.cells, &mut self.next_cells)`.
The freshly written buffer is tabulated by linear index `i`, whose cell is
`(i / cols, i % cols)`. -/
def update_cells (g : GameOfLife) : GameOfLife :=
  { g with
    cells := (List.range (g.rows * g.cols)).map
      (fun i => nextCellState g (i / g.cols) (i % g.cols)),
    next_cells := g.cells }

/-- The five seed coordinates `(x, y)` of `fn spawn_glider`. -/
def gliderPattern : List (Nat × Nat) :=
  [(0, 1), (1, 2), (2, 0), (2, 1), (2, 2)]

/-- `fn spawn_glider(&mut self)`: set each pattern cell whose linear index
is in range. -/
def spawn_glider (g : GameOfLife) : GameOfLife :=
  { g with
    cells := gliderPattern.foldl (fun cells p =>
      let idx := get_index g p.1 p.2
      if idx < cells.length then cells.set idx true else cells) g.cells }

/-- `Vec::resize(n, false)`: truncate or pad with `false` to length `n`. -/
def listResize (l : List Bool) (n : Nat) : List Bool :=
  l.take n ++ List.replicate (n - l.length) false

/-- The index-remapping loop of `fn resize`: the new `rows * cols` buffer is
zeroed and then, for every `(row, col)` inside both the old and the new
bounds, receives `old[row * oldCols + col]` at `row * cols + col` (the
bound check `new_index < len` in the source always succeeds).  Tabulated by
linear index. -/
def remap (old : List Bool) (oldRows oldCols rows cols : Nat) : List Bool :=
  (List.range (rows * cols)).map (fun i =>
    if i / cols < oldRows ∧ i % cols < oldCols then
      old.getD ((i / cols) * oldCols + i % cols) false
    else false)

/-- `fn resize(&mut self, rows: usize, cols: usize)`.  Tracing the source's
buffer swaps: `cells` receives the remap of the old `cells`, `reset_cells`
the remap of the old `reset_cells`, and the final
`next_cells.resize(rows*cols, false)` acts on the buffer then holding the
old `reset_cells`. -/
def resize (g : GameOfLife) (rows cols : Nat) : GameOfLife :=
  if rows < 1 ∨ cols < 1 then g
  else
    { g with
      rows := rows
      cols := cols
      cells := remap g.cells g.rows g.cols rows cols
      reset_cells := remap g.reset_cells g.rows g.cols rows cols
      next_cells := listResize g.reset_cells (rows * cols) }

/-- `fn reset(&mut self)`: `cells.clone_from(&reset_cells)` and zero the
step accumulator. -/
def reset (g : GameOfLife) : GameOfLife :=
  { g with cells := g.reset_cells, time_elapsed := 0 }

/-- `impl Default for GameOfLife`: a `START_SIZE × START_SIZE` dead grid,
then `spawn_glider`, then `reset_cells = cells.clone()`. -/
def GameOfLife.default : GameOfLife :=
  let state : GameOfLife :=
    { rows := START_SIZE
      cols := START_SIZE
      cells := List.replicate (START_SIZE * START_SIZE) false
      next_cells := List.replicate (START_SIZE * START_SIZE) false
      reset_cells := []
      step_time := 1/2
      last_step_time := 1/2
      time_elapsed := 0
      drawing_mode := false
      grid_mode := GridMode.Lines
      paused := false }
  let state := spawn_glider state
  { state with reset_cells := state.cells }

/-- An all-dead grid of the given dimensions (used to state seeding and
round-trip properties; field defaults as in `Default::default()`). -/
def deadGrid (rows cols : Nat) : GameOfLife :=
  { rows := rows
    cols := cols
    cells := List.replicate (rows * cols) false
    next_cells := List.replicate (rows * cols) false
    reset_cells := List.replicate (rows * cols) false
    step_time := 1/2
    last_step_time := 1/2
    time_elapsed := 0
    drawing_mode := false
    grid_mode := GridMode.Lines
    paused := false }

/-- A glider seeded alone in an otherwise all-dead `rows × cols` grid. -/
def gliderGrid (rows cols : Nat) : GameOfLife :=
  spawn_glider (deadGrid rows cols)

/-- The edge-triggered key presses and the (already grid-mapped) pointer
press delivered to one frame's `handle_input`.  `mouse = some (x, y)`
models a primary-button press whose pixel position floor-divides to cell
`(x, y)`. -/
structure Input where
  space : Bool
  keyR : Bool
  arrowUp : Bool
  arrowDown : Bool
  arrowLeft : Bool
  arrowRight : Bool
  keyG : Bool
  keyP : Bool
  keyS : Bool
  keyO : Bool
  mouse : Option (Nat × Nat)
  deriving DecidableEq

/-- An input frame with nothing pressed. -/
def Input.none : Input :=
  { space := false, keyR := false, arrowUp := false, arrowDown := false
    arrowLeft := false, arrowRight := false, keyG := false, keyP := false
    keyS := false, keyO := false, mouse := Option.none }

/-- An input frame pressing only the single-step / save key `S`. -/
def Input.sOnly : Input :=
  { Input.none with keyS := true }

/-- An input frame pressing only the draw-mode toggle `Space`. -/
def Input.spaceOnly : Input :=
  { Input.none with space := true }

/-- `fn handle_input(&mut self, ctx: ..)`, key branch by key branch in
source order.  The `O` branch only launches an asynchronous file load whose
text arrives on a later frame (modelled as a separate `Reachable`
transition below), and the drawing-mode `S` branch only writes the save
file; neither mutates the automaton state in this frame. -/
def handle_input (g : GameOfLife) (inp : Input) : GameOfLife :=
  let g :=
    if inp.space then
      let g :=
        if g.drawing_mode then { g with reset_cells := g.cells }
        else { g with cells := List.replicate g.cells.length false }
      { g with drawing_mode := !g.drawing_mode }
    else g
  let g := if inp.keyR then reset g else g
  let g := if inp.arrowUp then { g with step_time := min (g.step_time + 1/10) 2 } else g
  let g := if inp.arrowDown then { g with step_time := max (g.step_time - 1/10) 0 } else g
  let g := if inp.arrowLeft then resize g (g.rows - 1) (g.cols - 1) else g
  let g := if inp.arrowRight then resize g (g.rows + 1) (g.cols + 1) else g
  let g :=
    if inp.keyG then
      { g with
        grid_mode :=
          match g.grid_mode with
          | GridMode.Lines => GridMode.Shaded
          | GridMode.Shaded => GridMode.None
          | GridMode.None => GridMode.Lines }
    else g
  let g := if !g.drawing_mode && inp.keyP then { g with paused := !g.paused } else g
  let g := if g.paused && inp.keyS then update_cells g else g
  if g.drawing_mode then
    match inp.mouse with
    | some (x, y) =>
      let index := get_index g x y
      if index < g.cells.length then
        { g with cells := g.cells.set index (!g.cells.getD index false) }
      else g
    | Option.none => g
  else g

/-- `fn update(&mut self, ..., delta, ...)`: handle input, accumulate the
frame delta, then either return early (drawing mode, pause, or not enough
time elapsed) or record the realized interval, zero the accumulator and
step one generation. -/
def update (g : GameOfLife) (inp : Input) (delta : ℚ) : GameOfLife :=
  let g := handle_input g inp
  let g := { g with time_elapsed := g.time_elapsed + delta }
  if g.drawing_mode = true ∨ g.time_elapsed < g.step_time ∨ g.paused = true then g
  else update_cells { g with last_step_time := g.time_elapsed, time_elapsed := 0 }

/-- Rust `char::is_ascii_digit`-style digit value used by `parse`. -/
def digitVal (c : Char) : Option Nat :=
  if '0' ≤ c ∧ c ≤ '9' then some (c.toNat - '0'.toNat) else Option.none

/-- The digit-accumulating core of `str::parse::<usize>`. -/
def parseDigitsAcc : Nat → List Char → Option Nat
  | acc, [] => some acc
  | acc, c :: rest =>
    match digitVal c with
    | some d => parseDigitsAcc (acc * 10 + d) rest
    | Option.none => Option.none

/-- Parse a nonempty all-digit string of chars; empty or non-digit input is
an error. -/
def parseDigits (l : List Char) : Option Nat :=
  if l.isEmpty then Option.none else parseDigitsAcc 0 l

/-- `str::parse::<usize>`: an optional leading `'+'` then one or more
digits (`usize` overflow not modelled, see the file comment). -/
def parseNat (s : String) : Option Nat :=
  match s.toList with
  | '+' :: rest => parseDigits rest
  | l => parseDigits l

/-- `str::split_once(sep)` on the underlying char list: split at the first
occurrence of `sep`, `none` when absent. -/
def splitOnceAux (sep : Char) : List Char → Option (List Char × List Char)
  | [] => Option.none
  | c :: rest =>
    if c = sep then some ([], rest)
    else (splitOnceAux sep rest).map (fun p => (c :: p.1, p.2))

/-- `str::split_once(sep)`. -/
def splitOnce (s : String) (sep : Char) : Option (String × String) :=
  (splitOnceAux sep s.toList).map (fun p => (String.mk p.1, String.mk p.2))

/-- `str::starts_with(pre)`. -/
def startsWith (s pre : String) : Bool :=
  pre.toList.isPrefixOf s.toList

/-- One line of `fn load_from_text`: skip `//` comments and empty lines;
otherwise `split_once(' ').unwrap()` — `none` (panic) when the line has no
space — then parse both pieces; on any parse error report and skip;
otherwise set the cell at `get_index(x, y)` when that linear index is in
range. -/
def applyLine (g : GameOfLife) (line : String) : Option GameOfLife :=
  if startsWith line "//" || line = "" then some g
  else
    match splitOnce line ' ' with
    | Option.none => Option.none
    | some (xs, ys) =>
      match parseNat xs, parseNat ys with
      | some x, some y =>
        let index := get_index g x y
        if index < g.cells.length then some { g with cells := g.cells.set index true }
        else some g
      | _, _ => some g

/-- `fn load_from_text(&mut self, text: &str)` over the lines of `text`;
`none` models the `unwrap` panic aborting the load. -/
def load_from_text (g : GameOfLife) (text : List String) : Option GameOfLife :=
  text.foldlM applyLine g

/-- Decimal rendering of `n` (most significant digit first), the fuel-based
core of `format!("{n}")`. -/
def natDigitsCore : Nat → Nat → List Char → List Char
  | 0, _, acc => acc
  | fuel + 1, n, acc =>
    if n < 10 then Nat.digitChar n :: acc
    else natDigitsCore fuel (n / 10) (Nat.digitChar (n % 10) :: acc)

/-- Decimal digits of `n`, most significant first. -/
def natDigits (n : Nat) : List Char :=
  natDigitsCore (n + 1) n []

/-- `format!("{n}")`. -/
def natToString (n : Nat) : String :=
  String.mk (natDigits n)

/-- One serialized line `format!("{x} {y}")` of `fn save_to_text`. -/
def fmtLine (x y : Nat) : String :=
  natToString x ++ " " ++ natToString y

/-- `fn save_to_text(&self) -> String`: iterate `cells` with indices and
push the line `"{x} {y}"` (`x = i % cols`, `y = i / cols`) for every live
cell; modelled as the list of emitted lines. -/
def save_to_text (g : GameOfLife) : List String :=
  g.cells.enum.foldl (fun text p =>
    if p.2 then text ++ [fmtLine (p.1 % g.cols) (p.1 / g.cols)] else text) []

/-- Specification-side neighbor count, following the spec's words
independently of the loop bounds of the implementation: the number of live
cells among the up-to-8 surrounding in-grid positions — positions other
than `(row, col)` itself at Chebyshev distance at most 1, clamped at the
edges (no wraparound). -/
def specNeighborCount (g : GameOfLife) (row col : Nat) : Nat :=
  ((List.range g.rows).map (fun nr =>
    ((List.range g.cols).map (fun nc =>
      cond (decide ((nr, nc) ≠ (row, col)) &&
            decide (max nr row - min nr row ≤ 1) &&
            decide (max nc col - min nc col ≤ 1) &&
            cellAt g nr nc) 1 0)).sum)).sum

/-- Modelled from the spec: the classical four-rule Game of Life step for
one cell (a live cell survives on 2 or 3 neighbors, a dead cell is born on
exactly 3), over the same edge-clamped neighborhoods — the comparison
definition for the refinement claim. -/
def classicalNextCellState (g : GameOfLife) (row col : Nat) : Bool :=
  let neighbors := countNeighbors g row col
  if g.cells.getD (row * g.cols + col) false then
    decide (neighbors = 2 ∨ neighbors = 3)
  else decide (neighbors = 3)

/-- Modelled from the spec: one synchronous classical step of the whole
grid (same double buffering as `update_cells`). -/
def classical_update (g : GameOfLife) : GameOfLife :=
  { g with
    cells := (List.range (g.rows * g.cols)).map
      (fun i => classicalNextCellState g (i / g.cols) (i % g.cols)),
    next_cells := g.cells }

/-- All live cells of `g` lie in the square block `[0, k) × [0, k)`. -/
def liveWithin (g : GameOfLife) (k : Nat) : Prop :=
  ∀ nr, nr < g.rows → ∀ nc, nc < g.cols → cellAt g nr nc = true → nr < k ∧ nc < k

/-- `B` is the extension of the `5 × 5` grid `A` by dead cells to a grid of
at least `5 × 5` (same non-grid fields not required). -/
def ExtOf (A B : GameOfLife) : Prop :=
  A.rows = 5 ∧ A.cols = 5 ∧ 5 ≤ B.rows ∧ 5 ≤ B.cols ∧
  ∀ nr, nr < B.rows → ∀ nc, nc < B.cols →
    cellAt B nr nc = if nr < 5 ∧ nc < 5 then cellAt A nr nc else false

/-- The states reachable through the program's input interface: the
`Default` construction, one `update` frame (input handling plus possibly
one generation), the host-driven `reset`, and the deferred delivery of an
asynchronously loaded text (only a non-panicking load yields a state). -/
inductive Reachable : GameOfLife → Prop where
  | init : Reachable GameOfLife.default
  | frame {g : GameOfLife} (inp : Input) (delta : ℚ) :
      Reachable g → Reachable (update g inp delta)
  | resetEvent {g : GameOfLife} : Reachable g → Reachable (reset g)
  | asyncLoad {g g' : GameOfLife} (text : List String) :
      Reachable g → load_from_text g text = some g' → Reachable g'

/-! ### List and arithmetic helper lemmas -/

theorem foldl_add_sum (f : Nat → Nat) :
    ∀ (l : List Nat) (acc : Nat), l.foldl (fun a x => a + f x) acc = acc + (l.map f).sum := by
  intro l
  induction l with
  | nil => simp
  | cons x xs ih =>
    intro acc
    simp only [List.foldl_cons, List.map_cons, List.sum_cons, ih]
    omega

theorem foldl_skip_count (p : Nat → Prop) [DecidablePred p] (c : Nat → Bool) :
    ∀ (l : List Nat) (acc : Nat),
      l.foldl (fun a x => if p x then a else if c x then a + 1 else a) acc
        = acc + (l.map (fun x => cond (!decide (p x) && c x) 1 0)).sum := by
  intro l
  induction l with
  | nil => simp
  | cons x xs ih =>
    intro acc
    simp only [List.foldl_cons, List.map_cons, List.sum_cons]
    by_cases hp : p x
    · simp [hp, ih]
    · cases hc : c x
      · simp [hp, hc, ih]
      · simp [hp, hc, ih]
        omega

theorem foldl_congr_fn {α β : Type} (l : List β) (acc : α) (f h : α → β → α)
    (H : ∀ a x, f a x = h a x) : l.foldl f acc = l.foldl h acc := by
  have : f = h := funext fun a => funext fun x => H a x
  rw [this]

theorem mem_rangeIncl {x a b : Nat} (h : x ∈ rangeIncl a b) : a ≤ x ∧ x ≤ b := by
  unfold rangeIncl at h
  obtain ⟨i, hi, rfl⟩ := List.mem_map.1 h
  rw [List.mem_range] at hi
  omega

theorem rangeIncl_eq_range' (a b : Nat) : rangeIncl a b = List.range' a (b + 1 - a) := by
  rw [List.range'_eq_map_range]
  rfl

theorem sum_map_range_window (f : Nat → Nat) (a b n : Nat)
    (hab : a ≤ b) (hbn : b < n)
    (hlo : ∀ i, i < a → f i = 0) (hhi : ∀ i, b < i → i < n → f i = 0) :
    ((List.range n).map f).sum = ((rangeIncl a b).map f).sum := by
  have e1 : List.range' 0 a ++ List.range' a (b + 1 - a) = List.range' 0 (b + 1) := by
    have h := List.range'_append_1 0 a (b + 1 - a)
    simp only [Nat.zero_add] at h
    rw [h]
    congr 1
    omega
  have e2 : List.range' 0 (b + 1) ++ List.range' (b + 1) (n - (b + 1)) = List.range' 0 n := by
    have h := List.range'_append_1 0 (b + 1) (n - (b + 1))
    simp only [Nat.zero_add] at h
    rw [h]
    congr 1
    omega
  have hsplit : List.range n
      = List.range' 0 a ++ List.range' a (b + 1 - a) ++ List.range' (b + 1) (n - (b + 1)) := by
    rw [List.range_eq_range', ← e2, ← e1]
  have hzero1 : ((List.range' 0 a).map f).sum = 0 := by
    apply List.sum_eq_zero
    intro x hx
    obtain ⟨i, hi, rfl⟩ := List.mem_map.1 hx
    rw [List.mem_range'_1] at hi
    exact hlo i (by omega)
  have hzero2 : ((List.range' (b + 1) (n - (b + 1))).map f).sum = 0 := by
    apply List.sum_eq_zero
    intro x hx
    obtain ⟨i, hi, rfl⟩ := List.mem_map.1 hx
    rw [List.mem_range'_1] at hi
    exact hhi i (by omega) (by omega)
  rw [hsplit, List.map_append, List.map_append, List.sum_append, List.sum_append,
    hzero1, hzero2, rangeIncl_eq_range']
  omega

theorem getD_tabulate (f : Nat → Bool) (n i : Nat) (h : i < n) :
    ((List.range n).map f).getD i false = f i := by
  rw [List.getD_eq_getElem _ _ (by simpa using h)]
  simp

theorem rowcol_lt {row col rows cols : Nat} (hr : row < rows) (hc : col < cols) :
    row * cols + col < rows * cols := by
  calc row * cols + col < row * cols + cols := by omega
    _ = (row + 1) * cols := by ring
    _ ≤ rows * cols := Nat.mul_le_mul_right cols hr

theorem rowcol_div {row col cols : Nat} (hc : col < cols) : (row * cols + col) / cols = row := by
  rw [Nat.mul_comm, Nat.mul_add_div (by omega)]
  simp [Nat.div_eq_of_lt hc]

theorem rowcol_mod {row col cols : Nat} (hc : col < cols) : (row * cols + col) % cols = col := by
  rw [Nat.mul_comm, Nat.mul_add_mod]
  exact Nat.mod_eq_of_lt hc

/-! ### Neighbor counting: loop bounds versus the spec's clamped 8-neighborhood -/

theorem countNeighbors_eq_sums (g : GameOfLife) (row col : Nat) :
    countNeighbors g row col
      = ((rangeIncl (row - 1) (min (row + 1) (g.rows - 1))).map (fun nr =>
          ((rangeIncl (col - 1) (min (col + 1) (g.cols - 1))).map (fun nc =>
            cond (!decide (nc = col ∧ nr = row)
                  && g.cells.getD (nr * g.cols + nc) false) 1 0)).sum)).sum := by
  unfold countNeighbors
  rw [foldl_congr_fn _ 0 _ (fun a nr =>
      a + ((rangeIncl (col - 1) (min (col + 1) (g.cols - 1))).map (fun nc =>
        cond (!decide (nc = col ∧ nr = row)
              && g.cells.getD (nr * g.cols + nc) false) 1 0)).sum)
    (fun a nr => foldl_skip_count (fun nc => nc = col ∧ nr = row)
      (fun nc => g.cells.getD (nr * g.cols + nc) false) _ a)]
  rw [foldl_add_sum]
  omega

theorem countNeighbors_eq_spec (g : GameOfLife) (row col : Nat)
    (hr : row < g.rows) (hc : col < g.cols) :
    countNeighbors g row col = specNeighborCount g row col := by
  unfold specNeighborCount
  rw [countNeighbors_eq_sums]
  rw [sum_map_range_window _ (row - 1) (min (row + 1) (g.rows - 1)) g.rows
    (by omega) (by omega)
    (fun nr hnr => by
      apply List.sum_eq_zero
      intro x hx
      obtain ⟨nc, -, rfl⟩ := List.mem_map.1 hx
      have h2 : decide (max nr row - min nr row ≤ 1) = false := by
        simp only [decide_eq_false_iff_not]
        omega
      simp only [h2, Bool.and_false, Bool.false_and, cond_false])
    (fun nr hnr hnr' => by
      apply List.sum_eq_zero
      intro x hx
      obtain ⟨nc, -, rfl⟩ := List.mem_map.1 hx
      have h2 : decide (max nr row - min nr row ≤ 1) = false := by
        simp only [decide_eq_false_iff_not]
        omega
      simp only [h2, Bool.and_false, Bool.false_and, cond_false])]
  apply congrArg
  apply List.map_congr_left
  intro nr hnr
  obtain ⟨hnr1, hnr2⟩ := mem_rangeIncl hnr
  rw [sum_map_range_window _ (col - 1) (min (col + 1) (g.cols - 1)) g.cols
    (by omega) (by omega)
    (fun nc hnc => by
      have h3 : decide (max nc col - min nc col ≤ 1) = false := by
        simp only [decide_eq_false_iff_not]
        omega
      simp only [h3, Bool.and_false, Bool.false_and, cond_false])
    (fun nc hnc hnc' => by
      have h3 : decide (max nc col - min nc col ≤ 1) = false := by
        simp only [decide_eq_false_iff_not]
        omega
      simp only [h3, Bool.and_false, Bool.false_and, cond_false])]
  apply congrArg
  apply List.map_congr_left
  intro nc hnc
  obtain ⟨hnc1, hnc2⟩ := mem_rangeIncl hnc
  have h4 : decide (max nr row - min nr row ≤ 1) = true := by
    simp only [decide_eq_true_eq]
    omega
  have h5 : decide (max nc col - min nc col ≤ 1) = true := by
    simp only [decide_eq_true_eq]
    omega
  have h6 : decide ((nr, nc) ≠ (row, col)) = !decide (nc = col ∧ nr = row) := by
    rw [decide_not]
    congr 1
    simp [decide_eq_decide, Prod.ext_iff, And.comm]
  rw [h4, h5, h6]
  simp only [Bool.and_true, Bool.true_and]
  rfl

/-! ### The synchronous step -/

theorem cellAt_update (g : GameOfLife) (row col : Nat)
    (hr : row < g.rows) (hc : col < g.cols) :
    cellAt (update_cells g) row col = nextCellState g row col := by
  unfold cellAt update_cells
  simp only
  rw [getD_tabulate _ _ _ (rowcol_lt hr hc), rowcol_div hc, rowcol_mod hc]

theorem update_cells_rows (g : GameOfLife) : (update_cells g).rows = g.rows := rfl

theorem update_cells_cols (g : GameOfLife) : (update_cells g).cols = g.cols := rfl

theorem nextCellState_eq_classical (g : GameOfLife) (row col : Nat) :
    nextCellState g row col = classicalNextCellState g row col := by
  unfold nextCellState classicalNextCellState
  by_cases h2 : countNeighbors g row col = 2
  · cases hcell : g.cells.getD (row * g.cols + col) false <;> simp [h2]
  · by_cases h3 : countNeighbors g row col = 3
    · cases hcell : g.cells.getD (row * g.cols + col) false <;> simp [h2, h3]
    · cases hcell : g.cells.getD (row * g.cols + col) false <;> simp [h2, h3]

theorem update_cells_eq_classical (g : GameOfLife) : update_cells g = classical_update g := by
  unfold update_cells classical_update
  have h : (List.range (g.rows * g.cols)).map
        (fun i => nextCellState g (i / g.cols) (i % g.cols))
      = (List.range (g.rows * g.cols)).map
        (fun i => classicalNextCellState g (i / g.cols) (i % g.cols)) :=
    List.map_congr_left fun i _ => nextCellState_eq_classical g (i / g.cols) (i % g.cols)
  rw [h]

/-- C1: `update_cells` advances the grid by exactly one synchronous
generation: dimensions are unchanged, the old current buffer becomes the
scratch buffer (double buffering — every neighbor count reads the previous
generation only), and each cell's next state is its current state when its
edge-clamped (non-wrapping) live-neighbor count is 2, alive when the count
is 3, and dead for every other count. -/
theorem C1_update_cells_two_rule (g : GameOfLife) (row col : Nat)
    (hr : row < g.rows) (hc : col < g.cols) :
    (update_cells g).rows = g.rows ∧ (update_cells g).cols = g.cols ∧
    (update_cells g).next_cells = g.cells ∧
    cellAt (update_cells g) row col =
      (if specNeighborCount g row col = 2 then cellAt g row col
       else if specNeighborCount g row col = 3 then true
       else false) := by
  refine ⟨rfl, rfl, rfl, ?_⟩
  rw [cellAt_update g row col hr hc]
  simp only [nextCellState]
  rw [countNeighbors_eq_spec g row col hr hc]
  rfl

/-- Witness for C1 at the default-seeded glider grid, cell `(1, 1)`. -/
theorem C1_update_cells_two_rule_witness :
    ((1 : Nat) < (gliderGrid 5 5).rows ∧ (1 : Nat) < (gliderGrid 5 5).cols) ∧
    ((update_cells (gliderGrid 5 5)).rows = (gliderGrid 5 5).rows ∧
     (update_cells (gliderGrid 5 5)).cols = (gliderGrid 5 5).cols ∧
     (update_cells (gliderGrid 5 5)).next_cells = (gliderGrid 5 5).cells ∧
     cellAt (update_cells (gliderGrid 5 5)) 1 1 =
       (if specNeighborCount (gliderGrid 5 5) 1 1 = 2 then cellAt (gliderGrid 5 5) 1 1
        else if specNeighborCount (gliderGrid 5 5) 1 1 = 3 then true
        else false)) :=
  ⟨⟨by decide, by decide⟩,
   C1_update_cells_two_rule (gliderGrid 5 5) 1 1 (by decide) (by decide)⟩

/-- C4 counterexample: the claimed deviation does not exist — there is no
grid state on which one step of the implemented two-rule update differs
from one synchronous step of the classical four-rule Game of Life over the
same edge-clamped neighborhoods. -/
theorem C4_no_deviating_grid : ¬ ∃ g : GameOfLife, update_cells g ≠ classical_update g := by
  rintro ⟨g, hg⟩
  exact hg (update_cells_eq_classical g)

/-- C4 (amended): the implemented two-rule update coincides with the
classical four-rule Game of Life — on every grid state, one step of the
implemented rule (keep state on exactly 2 neighbors, alive on exactly 3,
dead otherwise) produces exactly the next grid of one synchronous classical
step (live survives on 2 or 3, dead is born on exactly 3) over the same
edge-clamped neighborhoods. -/
theorem C4_two_rule_eq_classical (g : GameOfLife) : update_cells g = classical_update g :=
  update_cells_eq_classical g

/-! ### Deserialization -/

/-- C2: refuted by the code — `load_from_text` does panic.  On the input
consisting of the single line `"1"` (no space at all, hence fewer than two
tokens under split-at-first-space), `line.split_once(' ').unwrap()` is
`unwrap` of `None`: the model's `none` denotes that panic; the line is not
reported-and-skipped and no rest of the input could continue to load. -/
theorem C2_no_space_line_panics :
    load_from_text (deadGrid 2 2) ["1"] = Option.none ∧
    load_from_text (deadGrid 2 2) ["1", "0 0"] = Option.none := by
  decide

/-- C3 counterexample: on a 2×2 all-dead grid, the well-formed line
`"2 0"` names `(x, y) = (2, 0)` with `x ≥ cols`; the claim says it changes
no cell, but the load sets the cell at linear index `0*2+2 = 2`, i.e. at
`(row, col) = (1, 0)` — a different cell than the one named. -/
theorem C3_out_of_range_x_sets_wrong_cell :
    (load_from_text (deadGrid 2 2) ["2 0"]).map GameOfLife.cells
      = some [false, false, true, false] ∧
    (deadGrid 2 2).cells = [false, false, false, false] := by
  decide

/-- C3 (amended): a well-formed line `(x, y)` of `load_from_text` never
resizes the grid, and it is ignored precisely when its linear index
`y*cols + x` is at least `rows*cols` — in particular whenever `y ≥ rows`;
but when `y*cols + x < rows*cols` (possible with `x ≥ cols`) the line sets
the cell at that linear index, which for `x ≥ cols` lies at a different
`(row, col)` than the one named by the line. -/
theorem C3_load_line_ignored_iff_linear_oob (g : GameOfLife) (line xs ys : String)
    (x y : Nat) (hWF : WF g)
    (hns : startsWith line "//" = false) (hne : line ≠ "")
    (hsp : splitOnce line ' ' = some (xs, ys))
    (hx : parseNat xs = some x) (hy : parseNat ys = some y) :
    (g.rows ≤ y → applyLine g line = some g) ∧
    (g.rows * g.cols ≤ y * g.cols + x → applyLine g line = some g) ∧
    (y * g.cols + x < g.rows * g.cols →
      applyLine g line = some { g with cells := g.cells.set (y * g.cols + x) true }) ∧
    (∀ g', applyLine g line = some g' → g'.rows = g.rows ∧ g'.cols = g.cols) := by
  obtain ⟨hlen, -, -, -, -⟩ := hWF
  have happ : applyLine g line
      = some (if y * g.cols + x < g.cells.length
              then { g with cells := g.cells.set (y * g.cols + x) true } else g) := by
    unfold applyLine
    rw [hns, hsp]
    simp only [Bool.false_or, decide_eq_true_eq]
    rw [if_neg hne, hx, hy]
    unfold get_index
    exact (apply_ite some _ _ _).symm
  refine ⟨?_, ?_, ?_, ?_⟩
  · intro hrow
    rw [happ, if_neg]
    rw [hlen]
    have : g.rows * g.cols ≤ y * g.cols := Nat.mul_le_mul_right g.cols hrow
    omega
  · intro hge
    rw [happ, if_neg]
    omega
  · intro hlt
    rw [happ, if_pos]
    omega
  · intro g' hg'
    rw [happ] at hg'
    injection hg' with h
    subst h
    split <;> simp

/-- Witness for C3 (amended): the 2×2 grid and the line `"2 0"`. -/
theorem C3_load_line_ignored_iff_linear_oob_witness :
    (WF (deadGrid 2 2) ∧ startsWith "2 0" "//" = false ∧ "2 0" ≠ "" ∧
     splitOnce "2 0" ' ' = some ("2", "0") ∧
     parseNat "2" = some 2 ∧ parseNat "0" = some 0) ∧
    ((deadGrid 2 2).rows ≤ 0 → applyLine (deadGrid 2 2) "2 0" = some (deadGrid 2 2)) ∧
    ((deadGrid 2 2).rows * (deadGrid 2 2).cols ≤ 0 * (deadGrid 2 2).cols + 2 →
      applyLine (deadGrid 2 2) "2 0" = some (deadGrid 2 2)) ∧
    (0 * (deadGrid 2 2).cols + 2 < (deadGrid 2 2).rows * (deadGrid 2 2).cols →
      applyLine (deadGrid 2 2) "2 0"
        = some { deadGrid 2 2 with
            cells := (deadGrid 2 2).cells.set (0 * (deadGrid 2 2).cols + 2) true }) ∧
    (∀ g', applyLine (deadGrid 2 2) "2 0" = some g' →
      g'.rows = (deadGrid 2 2).rows ∧ g'.cols = (deadGrid 2 2).cols) :=
  ⟨⟨by unfold WF; decide, by decide, by decide, by decide, by decide, by decide⟩,
   C3_load_line_ignored_iff_linear_oob (deadGrid 2 2) "2 0" "2" "0" 2 0
     (by unfold WF; decide) (by decide) (by decide) (by decide) (by decide) (by decide)⟩

/-! ### Frame-level input handling -/

theorem update_cells_drawing_mode (g : GameOfLife) :
    (update_cells g).drawing_mode = g.drawing_mode := rfl

theorem update_cells_paused (g : GameOfLife) : (update_cells g).paused = g.paused := rfl

theorem update_cells_time_elapsed (g : GameOfLife) :
    (update_cells g).time_elapsed = g.time_elapsed := rfl

theorem update_cells_reset_cells (g : GameOfLife) :
    (update_cells g).reset_cells = g.reset_cells := rfl

theorem reset_rows (g : GameOfLife) : (reset g).rows = g.rows := rfl

theorem reset_cols (g : GameOfLife) : (reset g).cols = g.cols := rfl

theorem reset_reset_cells (g : GameOfLife) : (reset g).reset_cells = g.reset_cells := rfl

theorem reset_cells_eq (g : GameOfLife) : (reset g).cells = g.reset_cells := rfl

theorem resize_rows (g : GameOfLife) (r c : Nat) :
    (resize g r c).rows = if r < 1 ∨ c < 1 then g.rows else r := by
  unfold resize
  split <;> simp_all

theorem resize_cols (g : GameOfLife) (r c : Nat) :
    (resize g r c).cols = if r < 1 ∨ c < 1 then g.cols else c := by
  unfold resize
  split <;> simp_all

theorem resize_reset_cells (g : GameOfLife) (r c : Nat) :
    (resize g r c).reset_cells =
      if r < 1 ∨ c < 1 then g.reset_cells else remap g.reset_cells g.rows g.cols r c := by
  unfold resize
  split <;> simp_all

theorem resize_drawing_mode (g : GameOfLife) (r c : Nat) :
    (resize g r c).drawing_mode = g.drawing_mode := by
  unfold resize
  split <;> rfl

theorem resize_paused (g : GameOfLife) (r c : Nat) :
    (resize g r c).paused = g.paused := by
  unfold resize
  split <;> rfl

/-- C5 counterexample: a frame in drawing mode does advance a generation.
On a 1×1 grid holding one live cell, with `drawing_mode` and `paused` both
set (reachable: pause with `P`, then enter drawing with `Space`), pressing
the single-step key `S` runs `update_cells` inside `handle_input`: the cell
dies, exactly as one generation step prescribes, even though
`drawing_mode = true` throughout the frame. -/
theorem C5_step_fires_in_drawing_mode :
    ({ deadGrid 1 1 with cells := [true], drawing_mode := true, paused := true }
        : GameOfLife).drawing_mode = true ∧
    (update { deadGrid 1 1 with cells := [true], drawing_mode := true, paused := true }
        Input.sOnly 0).cells
      = (update_cells
          { deadGrid 1 1 with cells := [true], drawing_mode := true, paused := true }).cells ∧
    (update { deadGrid 1 1 with cells := [true], drawing_mode := true, paused := true }
        Input.sOnly 0).cells
      ≠ ({ deadGrid 1 1 with cells := [true], drawing_mode := true, paused := true }
          : GameOfLife).cells := by
  decide

/-- C5 (amended): while drawing mode is active the timed stepping of
`update` is suspended — whenever input handling leaves the automaton in
drawing mode, the frame performs no generation step after `handle_input`,
regardless of elapsed time and pause state (only the time accumulator
advances).  However, input handling itself can step: pressing the
single-step key while simultaneously paused and in drawing mode advances
exactly one generation, because the pause single-step branch runs
regardless of drawing mode. -/
theorem C5_drawing_suspends_timed_stepping_only :
    (∀ (g : GameOfLife) (inp : Input) (delta : ℚ),
      (handle_input g inp).drawing_mode = true →
      update g inp delta
        = { handle_input g inp with
            time_elapsed := (handle_input g inp).time_elapsed + delta }) ∧
    (∀ (g : GameOfLife) (delta : ℚ),
      g.drawing_mode = true → g.paused = true →
      update g Input.sOnly delta
        = { update_cells g with time_elapsed := g.time_elapsed + delta }) := by
  constructor
  · intro g inp delta hd
    simp [update, hd]
  · intro g delta hd hp
    have h1 : handle_input g Input.sOnly = update_cells g := by
      simp [handle_input, Input.sOnly, Input.none, hd, hp, update_cells_drawing_mode]
    simp [update, h1, hd, update_cells_drawing_mode, update_cells_time_elapsed]

/-- Witness for C5 (amended), at the 1×1 scenario of the counterexample. -/
theorem C5_drawing_suspends_timed_stepping_only_witness :
    ({ deadGrid 1 1 with cells := [true], drawing_mode := true, paused := true }
        : GameOfLife).drawing_mode = true ∧
    ({ deadGrid 1 1 with cells := [true], drawing_mode := true, paused := true }
        : GameOfLife).paused = true ∧
    update { deadGrid 1 1 with cells := [true], drawing_mode := true, paused := true }
        Input.sOnly 0
      = { update_cells
            { deadGrid 1 1 with cells := [true], drawing_mode := true, paused := true } with
          time_elapsed :=
            ({ deadGrid 1 1 with cells := [true], drawing_mode := true, paused := true }
              : GameOfLife).time_elapsed + 0 } :=
  ⟨by decide, by decide,
   C5_drawing_suspends_timed_stepping_only.2
     { deadGrid 1 1 with cells := [true], drawing_mode := true, paused := true }
     0 (by decide) (by decide)⟩

/-- C9: toggling into drawing mode (`Space` with `drawing_mode = false`)
sets every cell of the live grid to dead and leaves `reset_cells`
unchanged; toggling out (`Space` with `drawing_mode = true`) copies the
current painted grid into `reset_cells`, so a subsequent `reset` restores
exactly the painted pattern; and this toggle is the only input path that
commits a new pattern into `reset_cells` — on any frame whose input does
not press `Space`, the resulting `reset_cells` is determined by the old
`rows`, `cols` and `reset_cells` alone (a resize remaps it
coordinate-preservingly), never by the painted `cells`. -/
theorem C9_space_toggle_commits_reset :
    (∀ g : GameOfLife, g.drawing_mode = false →
      (handle_input g Input.spaceOnly).cells = List.replicate g.cells.length false ∧
      (handle_input g Input.spaceOnly).reset_cells = g.reset_cells ∧
      (handle_input g Input.spaceOnly).drawing_mode = true) ∧
    (∀ g : GameOfLife, g.drawing_mode = true →
      (handle_input g Input.spaceOnly).reset_cells = g.cells ∧
      (reset (handle_input g Input.spaceOnly)).cells = g.cells ∧
      (handle_input g Input.spaceOnly).drawing_mode = false) ∧
    (∀ (inp : Input) (g₁ g₂ : GameOfLife), inp.space = false →
      g₁.rows = g₂.rows → g₁.cols = g₂.cols → g₁.reset_cells = g₂.reset_cells →
      (handle_input g₁ inp).reset_cells = (handle_input g₂ inp).reset_cells) := by
  refine ⟨?_, ?_, ?_⟩
  · intro g hd
    simp [handle_input, Input.spaceOnly, Input.none, hd]
  · intro g hd
    simp [handle_input, Input.spaceOnly, Input.none, hd, reset_cells_eq]
  · intro inp g₁ g₂ hsp hr hc hrc
    cases hm : inp.mouse <;>
      simp only [handle_input, hsp, hm, Bool.false_eq_true, if_false,
        apply_ite GameOfLife.reset_cells, apply_ite GameOfLife.rows,
        apply_ite GameOfLife.cols, reset_reset_cells, reset_rows, reset_cols,
        update_cells_reset_cells, update_cells_rows, update_cells_cols,
        resize_reset_cells, resize_rows, resize_cols, ite_self, hr, hc, hrc]

/-- Witness for C9 at a 2×2 state with a painted cell `(0, 0)`. -/
theorem C9_space_toggle_commits_reset_witness :
    (({ deadGrid 2 2 with cells := [true, false, false, false], drawing_mode := true }
        : GameOfLife).drawing_mode = true) ∧
    ((handle_input { deadGrid 2 2 with cells := [true, false, false, false], drawing_mode := true } Input.spaceOnly).reset_cells
      = [true, false, false, false] ∧
    (reset (handle_input { deadGrid 2 2 with cells := [true, false, false, false], drawing_mode := true } Input.spaceOnly)).cells
      = [true, false, false, false] ∧
    (handle_input { deadGrid 2 2 with cells := [true, false, false, false], drawing_mode := true } Input.spaceOnly).drawing_mode = false) :=
  ⟨by decide,
   by
    have h := C9_space_toggle_commits_reset.2.1
      { deadGrid 2 2 with cells := [true, false, false, false], drawing_mode := true }
      (by decide)
    exact h⟩

/-! ### Reachability and the square-grid invariant -/

theorem applyLine_dims (g : GameOfLife) (line : String) (g' : GameOfLife)
    (h : applyLine g line = some g') : g'.rows = g.rows ∧ g'.cols = g.cols := by
  unfold applyLine at h
  split at h
  · injection h with h
    subst h
    exact ⟨rfl, rfl⟩
  · split at h
    · exact Option.noConfusion h
    · split at h
      · simp only [] at h
        split at h
        · injection h with h
          subst h
          exact ⟨rfl, rfl⟩
        · injection h with h
          subst h
          exact ⟨rfl, rfl⟩
      · injection h with h
        subst h
        exact ⟨rfl, rfl⟩

theorem load_from_text_dims :
    ∀ (text : List String) (g g' : GameOfLife), load_from_text g text = some g' →
      g'.rows = g.rows ∧ g'.cols = g.cols := by
  intro text
  induction text with
  | nil =>
    intro g g' h
    unfold load_from_text at h
    simp only [List.foldlM_nil] at h
    injection h with h
    subst h
    exact ⟨rfl, rfl⟩
  | cons line rest ih =>
    intro g g' h
    unfold load_from_text at h
    rw [List.foldlM_cons] at h
    cases ha : applyLine g line with
    | none =>
      rw [ha] at h
      exact Option.noConfusion h
    | some g₁ =>
      rw [ha] at h
      simp only [Option.bind_eq_bind, Option.some_bind] at h
      have h1 := applyLine_dims g line g₁ ha
      have h2 := ih g₁ g' h
      exact ⟨h2.1.trans h1.1, h2.2.trans h1.2⟩

theorem handle_input_square (g : GameOfLife) (inp : Input) (h : g.rows = g.cols) :
    (handle_input g inp).rows = (handle_input g inp).cols := by
  cases hm : inp.mouse <;>
    cases hL : inp.arrowLeft <;> cases hR : inp.arrowRight <;>
      simp only [handle_input, hm, hL, hR, Bool.false_eq_true, if_false, if_true,
        apply_ite GameOfLife.rows, apply_ite GameOfLife.cols,
        reset_rows, reset_cols, update_cells_rows, update_cells_cols,
        resize_rows, resize_cols, ite_self] <;>
      (try split_ifs) <;> omega

theorem update_square (g : GameOfLife) (inp : Input) (delta : ℚ)
    (h : g.rows = g.cols) :
    (update g inp delta).rows = (update g inp delta).cols := by
  have h1 := handle_input_square g inp h
  simp only [update]
  split
  · exact h1
  · simpa [update_cells_rows, update_cells_cols] using h1

/-- C10: every state reachable through the program's input interface has a
square grid — the automaton is constructed `START_SIZE × START_SIZE`
(40 × 40), and every transition (input frames, whose only resize calls are
`resize(rows-1, cols-1)` and `resize(rows+1, cols+1)`, host resets, and
delivered asynchronous loads) preserves `rows = cols`. -/
theorem C10_reachable_grid_square :
    (GameOfLife.default.rows = 40 ∧ GameOfLife.default.cols = 40) ∧
    ∀ g : GameOfLife, Reachable g → g.rows = g.cols := by
  refine ⟨⟨rfl, rfl⟩, ?_⟩
  intro g h
  induction h with
  | init => rfl
  | frame inp delta _ ih => exact update_square _ inp delta ih
  | resetEvent _ ih => simpa [reset_rows, reset_cols] using ih
  | asyncLoad text _ hload ih =>
    obtain ⟨h1, h2⟩ := load_from_text_dims text _ _ hload
    omega

/-- Witness for C10 at the initial state. -/
theorem C10_reachable_grid_square_witness :
    GameOfLife.default.rows = GameOfLife.default.cols :=
  C10_reachable_grid_square.2 GameOfLife.default Reachable.init

/-! ### Resize -/

theorem remap_length (old : List Bool) (oR oC r c : Nat) :
    (remap old oR oC r c).length = r * c := by
  simp [remap]

theorem listResize_length (l : List Bool) (n : Nat) : (listResize l n).length = n := by
  simp [listResize]
  omega

theorem getD_remap (old : List Bool) (oR oC r c row col : Nat)
    (hr : row < r) (hc : col < c) :
    (remap old oR oC r c).getD (row * c + col) false
      = (if row < oR ∧ col < oC then old.getD (row * oC + col) false else false) := by
  unfold remap
  rw [getD_tabulate _ _ _ (rowcol_lt hr hc), rowcol_div hc, rowcol_mod hc]

/-- C8: `resize(newRows, newCols)` is a silent no-op when either target is
below 1, leaving dimensions and all three buffers unchanged; otherwise it
sets the new dimensions, keeps all buffers at length `rows*cols`, and
remaps both `cells` and `reset_cells` with the same coordinate-preserving
row-major algorithm — every position inside both the old and new bounds
keeps its prior state in both buffers, positions outside the old bounds
become dead, positions outside the new bounds are discarded — so `reset()`
after the resize restores the pre-resize saved pattern at the
corresponding coordinates. -/
theorem C8_resize_remaps_both_buffers (g : GameOfLife) (r c : Nat) :
    (r < 1 ∨ c < 1 → resize g r c = g) ∧
    (1 ≤ r → 1 ≤ c →
      (resize g r c).rows = r ∧ (resize g r c).cols = c ∧ WF (resize g r c) ∧
      (∀ row, row < r → ∀ col, col < c →
        cellAt (resize g r c) row col
          = (if row < g.rows ∧ col < g.cols then cellAt g row col else false) ∧
        resetAt (resize g r c) row col
          = (if row < g.rows ∧ col < g.cols then resetAt g row col else false)) ∧
      (∀ row, row < r → ∀ col, col < c →
        cellAt (reset (resize g r c)) row col
          = (if row < g.rows ∧ col < g.cols then resetAt g row col else false))) := by
  constructor
  · intro hno
    unfold resize
    rw [if_pos hno]
  · intro hr1 hc1
    have hcond : ¬(r < 1 ∨ c < 1) := by omega
    have hres : resize g r c
        = { g with
            rows := r
            cols := c
            cells := remap g.cells g.rows g.cols r c
            reset_cells := remap g.reset_cells g.rows g.cols r c
            next_cells := listResize g.reset_cells (r * c) } := by
      unfold resize
      rw [if_neg hcond]
    refine ⟨by rw [hres], by rw [hres], ?_, ?_, ?_⟩
    · rw [hres]
      refine ⟨?_, ?_, ?_, hr1, hc1⟩
      · simpa using remap_length g.cells g.rows g.cols r c
      · simpa using listResize_length g.reset_cells (r * c)
      · simpa using remap_length g.reset_cells g.rows g.cols r c
    · intro row hrow col hcol
      rw [hres]
      unfold cellAt resetAt
      simp only
      rw [getD_remap _ _ _ _ _ _ _ hrow hcol, getD_remap _ _ _ _ _ _ _ hrow hcol]
      exact ⟨rfl, rfl⟩
    · intro row hrow col hcol
      rw [hres]
      unfold reset cellAt resetAt
      simp only
      rw [getD_remap _ _ _ _ _ _ _ hrow hcol]

/-- Witness for C8: shrink the 5×5 glider grid to 3×3 and inspect the cell
and reset snapshot at `(2, 1)`. -/
theorem C8_resize_remaps_both_buffers_witness :
    ((1 : Nat) ≤ 3 ∧ (2 : Nat) < 3 ∧ (1 : Nat) < 3) ∧
    cellAt (resize (gliderGrid 5 5) 3 3) 2 1
      = (if 2 < (gliderGrid 5 5).rows ∧ 1 < (gliderGrid 5 5).cols
         then cellAt (gliderGrid 5 5) 2 1 else false) :=
  ⟨⟨by decide, by decide, by decide⟩,
   (((C8_resize_remaps_both_buffers (gliderGrid 5 5) 3 3).2
      (by decide) (by decide)).2.2.2.1 2 (by decide) 1 (by decide)).1⟩

/-! ### The glider seed and its four-step translation -/

theorem getD_eq_getElemD (l : List Bool) (j : Nat) :
    l.getD j false = (l[j]?).getD false := by
  rw [List.getD_eq_getElem?_getD]

theorem getD_set_lt (l : List Bool) (i j : Nat) (b : Bool) (hi : i < l.length) :
    (l.set i b).getD j false = if j = i then b else l.getD j false := by
  rw [getD_eq_getElemD, getD_eq_getElemD, List.getElem?_set]
  by_cases hj : j = i
  · subst hj
    simp [hi]
  · rw [if_neg (fun h => hj h.symm), if_neg hj]

theorem getD_replicate_false (n j : Nat) : (List.replicate n false).getD j false = false := by
  rcases Nat.lt_or_ge j n with h | h
  · rw [List.getD_eq_getElem _ _ (by simpa using h)]
    simp
  · rw [List.getD_eq_default _ _ (by simpa using h)]

theorem foldl_set_guarded_getD :
    ∀ (idxs : List Nat) (l : List Bool) (j : Nat),
      (idxs.foldl (fun acc i => if i < acc.length then acc.set i true else acc) l).getD j false
        = (l.getD j false || (decide (j ∈ idxs) && decide (j < l.length))) := by
  intro idxs
  induction idxs with
  | nil => simp
  | cons i rest ih =>
    intro l j
    rw [List.foldl_cons]
    by_cases hi : i < l.length
    · rw [if_pos hi, ih (l.set i true) j]
      rw [getD_set_lt l i j true hi]
      by_cases hj : j = i
      · subst hj
        simp [hi, List.length_set]
      · simp only [if_neg hj, List.length_set, List.mem_cons]
        by_cases hjr : j ∈ rest <;> by_cases hjl : j < l.length <;>
          simp [hj, hjr, hjl]
    · rw [if_neg hi, ih l j]
      by_cases hj : j = i
      · subst hj
        have hjl : ¬ j < l.length := hi
        simp [hjl]
      · simp [List.mem_cons, hj]

theorem rowcol_inj (C y x nr nc : Nat) (hx : x < C) (hnc : nc < C) :
    (nr * C + nc = y * C + x) ↔ (nr = y ∧ nc = x) := by
  constructor
  · intro h
    have h1 : (nr * C + nc) % C = (y * C + x) % C := by rw [h]
    rw [rowcol_mod hnc, rowcol_mod hx] at h1
    have h2 : (nr * C + nc) / C = (y * C + x) / C := by rw [h]
    rw [rowcol_div hnc, rowcol_div hx] at h2
    exact ⟨h2, h1⟩
  · rintro ⟨rfl, rfl⟩
    rfl

theorem spawn_glider_cols (g : GameOfLife) : (spawn_glider g).cols = g.cols := rfl

theorem deadGrid_cols (R C : Nat) : (deadGrid R C).cols = C := rfl

theorem deadGrid_cells (R C : Nat) : (deadGrid R C).cells = List.replicate (R * C) false := rfl

theorem spawn_glider_cells (g : GameOfLife) :
    (spawn_glider g).cells
      = gliderPattern.foldl (fun cells p =>
          let idx := get_index g p.1 p.2
          if idx < cells.length then cells.set idx true else cells) g.cells := by
  unfold spawn_glider
  with_reducible rfl

theorem spawn_fold_getD (g : GameOfLife) :
    ∀ (ps : List (Nat × Nat)) (l : List Bool) (j : Nat),
      (ps.foldl (fun cells p =>
          let idx := get_index g p.1 p.2
          if idx < cells.length then cells.set idx true else cells) l).getD j false
        = (l.getD j false ||
            (decide (j ∈ ps.map (fun p => get_index g p.1 p.2)) && decide (j < l.length))) := by
  intro ps
  induction ps with
  | nil => simp
  | cons q rest ih =>
    intro l j
    rw [List.foldl_cons]
    simp only []
    by_cases hi : get_index g q.1 q.2 < l.length
    · rw [if_pos hi, ih (l.set (get_index g q.1 q.2) true) j,
        getD_set_lt l (get_index g q.1 q.2) j true hi]
      by_cases hj : j = get_index g q.1 q.2
      · subst hj
        simp [hi, List.length_set]
      · simp only [if_neg hj, List.length_set, List.map_cons, List.mem_cons]
        by_cases hjr : j ∈ rest.map (fun p => get_index g p.1 p.2) <;>
          by_cases hjl : j < l.length <;> simp [hj, hjr, hjl]
    · rw [if_neg hi, ih l j]
      by_cases hj : j = get_index g q.1 q.2
      · subst hj
        have hlt : decide (get_index g q.1 q.2 < l.length) = false := by
          simp only [decide_eq_false_iff_not]
          exact hi
        rw [hlt, Bool.and_false, Bool.and_false]
      · have hd : (j ∈ (q :: rest).map (fun p => get_index g p.1 p.2))
            ↔ (j ∈ rest.map (fun p => get_index g p.1 p.2)) := by
          simp [List.mem_cons, hj]
        rw [decide_eq_decide.mpr hd]

theorem cellAt_gliderGrid (R C : Nat) (h5c : 5 ≤ C) (nr nc : Nat)
    (hnr : nr < R) (hnc : nc < C) :
    cellAt (gliderGrid R C) nr nc = decide ((nc, nr) ∈ gliderPattern) := by
  unfold cellAt gliderGrid
  rw [spawn_glider_cols, deadGrid_cols, spawn_glider_cells,
    spawn_fold_getD (deadGrid R C) gliderPattern (deadGrid R C).cells (nr * C + nc),
    deadGrid_cells, getD_replicate_false, List.length_replicate, Bool.false_or]
  have hlt : decide (nr * C + nc < R * C) = true := by
    simp only [decide_eq_true_eq]
    exact rowcol_lt hnr hnc
  rw [hlt, Bool.and_true]
  have hmem : (nr * C + nc ∈ gliderPattern.map
        (fun p => get_index (deadGrid R C) p.1 p.2))
      ↔ ((nc, nr) ∈ gliderPattern) := by
    simp only [gliderPattern, get_index, deadGrid_cols, List.map_cons, List.map_nil,
      List.mem_cons, List.not_mem_nil, or_false, Prod.mk.injEq]
    rw [rowcol_inj C 1 0 nr nc (by omega) hnc, rowcol_inj C 2 1 nr nc (by omega) hnc,
      rowcol_inj C 0 2 nr nc (by omega) hnc, rowcol_inj C 1 2 nr nc (by omega) hnc,
      rowcol_inj C 2 2 nr nc (by omega) hnc]
    tauto
  exact decide_eq_decide.mpr hmem

theorem ExtOf_gliderGrid (R C : Nat) (h5r : 5 ≤ R) (h5c : 5 ≤ C) :
    ExtOf (gliderGrid 5 5) (gliderGrid R C) := by
  refine ⟨rfl, rfl, h5r, h5c, ?_⟩
  intro nr hnr nc hnc
  rw [cellAt_gliderGrid R C h5c nr nc hnr hnc]
  by_cases hsm : nr < 5 ∧ nc < 5
  · rw [if_pos hsm, cellAt_gliderGrid 5 5 (by omega) nr nc hsm.1 hsm.2]
  · rw [if_neg hsm]
    simp only [decide_eq_false_iff_not]
    simp only [gliderPattern, List.mem_cons, List.not_mem_nil, or_false, Prod.mk.injEq]
    omega

theorem rangeIncl_zero (k : Nat) : rangeIncl 0 k = List.range (k + 1) := by
  unfold rangeIncl
  simp

theorem spec_count_ext (A B : GameOfLife) (hA5r : A.rows = 5) (hA5c : A.cols = 5)
    (hBr : 5 ≤ B.rows) (hBc : 5 ≤ B.cols)
    (hcell : ∀ nr, nr < B.rows → ∀ nc, nc < B.cols →
      cellAt B nr nc = if nr < 5 ∧ nc < 5 then cellAt A nr nc else false)
    (row col : Nat) :
    specNeighborCount B row col = specNeighborCount A row col := by
  unfold specNeighborCount
  rw [hA5r, hA5c]
  rw [sum_map_range_window _ 0 4 B.rows (by omega) (by omega)
    (fun i hi => absurd hi (by omega))
    (fun i h4 hiB => by
      apply List.sum_eq_zero
      intro x hx
      obtain ⟨nc, hncm, rfl⟩ := List.mem_map.1 hx
      rw [List.mem_range] at hncm
      have hBc0 : cellAt B i nc = false := by
        rw [hcell i hiB nc hncm, if_neg (by omega)]
      rw [hBc0]
      simp)]
  rw [rangeIncl_zero]
  apply congrArg
  apply List.map_congr_left
  intro nr hnr
  rw [List.mem_range] at hnr
  rw [sum_map_range_window _ 0 4 B.cols (by omega) (by omega)
    (fun i hi => absurd hi (by omega))
    (fun nc h4 hncB => by
      have hBc0 : cellAt B nr nc = false := by
        rw [hcell nr (by omega) nc hncB, if_neg (by omega)]
      rw [hBc0]
      simp)]
  rw [rangeIncl_zero]
  apply congrArg
  apply List.map_congr_left
  intro nc hnc
  rw [List.mem_range] at hnc
  have hBA : cellAt B nr nc = cellAt A nr nc := by
    rw [hcell nr (by omega) nc (by omega), if_pos ⟨by omega, by omega⟩]
  rw [hBA]

theorem spec_count_far (A : GameOfLife) (hA5r : A.rows = 5) (hA5c : A.cols = 5)
    (hL : liveWithin A 4) (row col : Nat) (hfar : 5 ≤ row ∨ 5 ≤ col) :
    specNeighborCount A row col = 0 := by
  unfold specNeighborCount
  apply List.sum_eq_zero
  intro x hx
  obtain ⟨nr, hnrm, rfl⟩ := List.mem_map.1 hx
  apply List.sum_eq_zero
  intro y hy
  obtain ⟨nc, hncm, rfl⟩ := List.mem_map.1 hy
  rw [List.mem_range] at hnrm hncm
  cases hcl : cellAt A nr nc
  · simp
  · obtain ⟨h1, h2⟩ := hL nr hnrm nc hncm hcl
    rcases hfar with h | h
    · have hd : decide (max nr row - min nr row ≤ 1) = false := by
        simp only [decide_eq_false_iff_not]
        omega
      rw [hd]
      simp
    · have hd : decide (max nc col - min nc col ≤ 1) = false := by
        simp only [decide_eq_false_iff_not]
        omega
      rw [hd]
      simp

theorem ExtOf_update (A B : GameOfLife) (hE : ExtOf A B) (hL : liveWithin A 4) :
    ExtOf (update_cells A) (update_cells B) := by
  obtain ⟨hA5r, hA5c, hBr, hBc, hcell⟩ := hE
  refine ⟨hA5r, hA5c, by rw [update_cells_rows]; exact hBr,
    by rw [update_cells_cols]; exact hBc, ?_⟩
  intro nr hnr nc hnc
  rw [update_cells_rows] at hnr
  rw [update_cells_cols] at hnc
  rw [cellAt_update B nr nc hnr hnc]
  have hspec : countNeighbors B nr nc = specNeighborCount A nr nc := by
    rw [countNeighbors_eq_spec B nr nc hnr hnc]
    exact spec_count_ext A B hA5r hA5c hBr hBc hcell nr nc
  by_cases hsm : nr < 5 ∧ nc < 5
  · rw [if_pos hsm]
    rw [cellAt_update A nr nc (by rw [hA5r]; exact hsm.1) (by rw [hA5c]; exact hsm.2)]
    simp only [nextCellState]
    rw [hspec,
      countNeighbors_eq_spec A nr nc (by rw [hA5r]; exact hsm.1) (by rw [hA5c]; exact hsm.2)]
    have hown : B.cells.getD (nr * B.cols + nc) false
        = A.cells.getD (nr * A.cols + nc) false := by
      have h1 := hcell nr hnr nc hnc
      unfold cellAt at h1
      rw [h1, if_pos hsm]
    rw [hown]
  · rw [if_neg hsm]
    have h0 : countNeighbors B nr nc = 0 := by
      rw [hspec]
      exact spec_count_far A hA5r hA5c hL nr nc (by omega)
    simp only [nextCellState]
    rw [h0]
    simp

/-- C6: a glider `{(0,1),(1,2),(2,0),(2,1),(2,2)}` seeded alone in an
otherwise all-dead grid of any size at least `5 × 5`, after exactly four
applications of the step, reproduces the same five-cell shape translated by
`(+1, +1)`: the resulting grid's cell at `(row, col)` is live exactly when
`(col, row)` lies in the pattern shifted by one in each coordinate. -/
theorem C6_glider_translates_in_four_steps (rows cols : Nat)
    (h5r : 5 ≤ rows) (h5c : 5 ≤ cols) (row col : Nat)
    (hrow : row < rows) (hcol : col < cols) :
    cellAt (update_cells (update_cells (update_cells (update_cells
        (gliderGrid rows cols))))) row col
      = decide ((col, row) ∈ gliderPattern.map (fun p => (p.1 + 1, p.2 + 1))) := by
  have hE0 : ExtOf (gliderGrid 5 5) (gliderGrid rows cols) :=
    ExtOf_gliderGrid rows cols h5r h5c
  have hL0 : liveWithin (gliderGrid 5 5) 4 := by
    unfold liveWithin
    decide
  have hE1 := ExtOf_update _ _ hE0 hL0
  have hL1 : liveWithin (update_cells (gliderGrid 5 5)) 4 := by
    unfold liveWithin
    decide
  have hE2 := ExtOf_update _ _ hE1 hL1
  have hL2 : liveWithin (update_cells (update_cells (gliderGrid 5 5))) 4 := by
    unfold liveWithin
    decide
  have hE3 := ExtOf_update _ _ hE2 hL2
  have hL3 : liveWithin (update_cells (update_cells (update_cells (gliderGrid 5 5)))) 4 := by
    unfold liveWithin
    decide
  have hE4 := ExtOf_update _ _ hE3 hL3
  obtain ⟨-, -, -, -, hcell⟩ := hE4
  have h := hcell row hrow col hcol
  rw [h]
  by_cases hsm : row < 5 ∧ col < 5
  · rw [if_pos hsm]
    have hconc : ∀ r', r' < 5 → ∀ c', c' < 5 →
        cellAt (update_cells (update_cells (update_cells (update_cells
            (gliderGrid 5 5))))) r' c'
          = decide ((c', r') ∈ gliderPattern.map (fun p => (p.1 + 1, p.2 + 1))) := by
      decide
    exact hconc row hsm.1 col hsm.2
  · rw [if_neg hsm]
    have hnm : ¬ ((col, row) ∈ gliderPattern.map (fun p => (p.1 + 1, p.2 + 1))) := by
      simp only [gliderPattern, List.map_cons, List.map_nil, List.mem_cons,
        List.not_mem_nil, or_false, Prod.mk.injEq]
      omega
    simp [hnm]

/-- Witness for C6 at a `5 × 5` grid and cell `(3, 3)`. -/
theorem C6_glider_translates_in_four_steps_witness :
    ((5 : Nat) ≤ 5 ∧ (3 : Nat) < 5) ∧
    cellAt (update_cells (update_cells (update_cells (update_cells
        (gliderGrid 5 5))))) 3 3
      = decide (((3 : Nat), (3 : Nat)) ∈ gliderPattern.map (fun p => (p.1 + 1, p.2 + 1))) :=
  ⟨⟨by decide, by decide⟩,
   C6_glider_translates_in_four_steps 5 5 (by decide) (by decide) 3 3
     (by decide) (by decide)⟩

/-! ### Serialization round trip -/

theorem natDigitsCore_fuel :
    ∀ (n f1 f2 : Nat) (acc : List Char), n < f1 → n < f2 →
      natDigitsCore f1 n acc = natDigitsCore f2 n acc := by
  intro n
  induction n using Nat.strong_induction_on with
  | _ n ih =>
    intro f1 f2 acc h1 h2
    cases f1 with
    | zero => omega
    | succ f1 =>
      cases f2 with
      | zero => omega
      | succ f2 =>
        by_cases hn : n < 10
        · simp [natDigitsCore, hn]
        · simp only [natDigitsCore, if_neg hn]
          exact ih (n / 10) (by omega) f1 f2 _ (by omega) (by omega)

theorem natDigitsCore_append :
    ∀ (f n : Nat) (acc : List Char), natDigitsCore f n acc = natDigitsCore f n [] ++ acc := by
  intro f
  induction f with
  | zero => simp [natDigitsCore]
  | succ f ih =>
    intro n acc
    by_cases hn : n < 10
    · simp [natDigitsCore, hn]
    · simp only [natDigitsCore, if_neg hn]
      rw [ih (n / 10) (Nat.digitChar (n % 10) :: acc), ih (n / 10) [Nat.digitChar (n % 10)]]
      simp

theorem natDigits_eq (n : Nat) :
    natDigits n = if n < 10 then [Nat.digitChar n]
      else natDigits (n / 10) ++ [Nat.digitChar (n % 10)] := by
  by_cases hn : n < 10
  · rw [if_pos hn]
    unfold natDigits
    simp [natDigitsCore, hn]
  · rw [if_neg hn]
    have h1 : natDigits n = natDigitsCore n (n / 10) [Nat.digitChar (n % 10)] := by
      unfold natDigits
      simp [natDigitsCore, hn]
    rw [h1, natDigitsCore_append n (n / 10) [Nat.digitChar (n % 10)],
      natDigitsCore_fuel (n / 10) n (n / 10 + 1) [] (by omega) (by omega)]
    rfl

theorem digitVal_digitChar : ∀ d, d < 10 → digitVal (Nat.digitChar d) = some d := by
  decide

theorem digitChar_not_special :
    ∀ d, d < 10 → Nat.digitChar d ≠ ' ' ∧ Nat.digitChar d ≠ '/' ∧ Nat.digitChar d ≠ '+' := by
  decide

theorem natDigits_chars :
    ∀ n c, c ∈ natDigits n → ∃ d, d < 10 ∧ c = Nat.digitChar d := by
  intro n
  induction n using Nat.strong_induction_on with
  | _ n ih =>
    intro c hc
    rw [natDigits_eq] at hc
    by_cases hn : n < 10
    · rw [if_pos hn] at hc
      simp only [List.mem_singleton] at hc
      exact ⟨n, hn, hc⟩
    · rw [if_neg hn] at hc
      rcases List.mem_append.1 hc with h | h
      · exact ih (n / 10) (by omega) c h
      · simp only [List.mem_singleton] at h
        exact ⟨n % 10, by omega, h⟩

theorem natDigits_ne_nil (n : Nat) : natDigits n ≠ [] := by
  rw [natDigits_eq]
  by_cases hn : n < 10
  · simp [hn]
  · simp [hn]

theorem parseDigitsAcc_natDigits :
    ∀ (n : Nat) (rest : List Char),
      parseDigitsAcc 0 (natDigits n ++ rest) = parseDigitsAcc n rest := by
  intro n
  induction n using Nat.strong_induction_on with
  | _ n ih =>
    intro rest
    rw [natDigits_eq]
    by_cases hn : n < 10
    · rw [if_pos hn]
      simp only [List.cons_append, List.nil_append, parseDigitsAcc,
        digitVal_digitChar n hn]
      have h0 : 0 * 10 + n = n := by omega
      rw [h0]
      rfl
    · rw [if_neg hn, List.append_assoc, ih (n / 10) (by omega)]
      simp only [List.cons_append, List.nil_append, parseDigitsAcc,
        digitVal_digitChar (n % 10) (by omega : n % 10 < 10)]
      have h0 : n / 10 * 10 + n % 10 = n := by omega
      rw [h0]
      rfl

theorem toList_natToString (n : Nat) : (natToString n).toList = natDigits n := rfl

theorem parseNat_natToString (n : Nat) : parseNat (natToString n) = some n := by
  unfold parseNat
  split
  · rename_i rest heq
    rw [toList_natToString] at heq
    exfalso
    have hplus : '+' ∈ natDigits n := by
      rw [heq]
      exact List.mem_cons_self _ _
    obtain ⟨d, hd, hchar⟩ := natDigits_chars n '+' hplus
    exact (digitChar_not_special d hd).2.2 hchar.symm
  · rw [toList_natToString]
    unfold parseDigits
    rw [if_neg (by simp [List.isEmpty_iff, natDigits_ne_nil])]
    have h := parseDigitsAcc_natDigits n []
    rw [List.append_nil] at h
    exact h

theorem splitOnceAux_no_sep :
    ∀ (a b : List Char), (∀ c ∈ a, c ≠ ' ') →
      splitOnceAux ' ' (a ++ ' ' :: b) = some (a, b) := by
  intro a
  induction a with
  | nil =>
    intro b _
    simp [splitOnceAux]
  | cons c a' ih =>
    intro b hns
    have hc : c ≠ ' ' := hns c (List.mem_cons_self c a')
    simp only [List.cons_append, splitOnceAux, if_neg hc]
    show Option.map (fun p => (c :: p.1, p.2)) (splitOnceAux ' ' (a' ++ ' ' :: b))
      = some (c :: a', b)
    rw [ih b (fun x hx => hns x (List.mem_cons_of_mem c hx))]
    rfl

theorem toList_fmtLine (x y : Nat) :
    (fmtLine x y).toList = natDigits x ++ ' ' :: natDigits y := by
  show (natToString x ++ " " ++ natToString y).data = _
  rw [String.data_append, String.data_append]
  show natDigits x ++ [' '] ++ natDigits y = _
  rw [List.append_assoc]
  rfl

theorem splitOnce_fmtLine (x y : Nat) :
    splitOnce (fmtLine x y) ' ' = some (natToString x, natToString y) := by
  unfold splitOnce
  rw [toList_fmtLine, splitOnceAux_no_sep (natDigits x) (natDigits y)
    (fun c hc => by
      obtain ⟨d, hd, rfl⟩ := natDigits_chars x c hc
      exact (digitChar_not_special d hd).1)]
  rfl

theorem startsWith_fmtLine (x y : Nat) : startsWith (fmtLine x y) "//" = false := by
  unfold startsWith
  rw [toList_fmtLine]
  cases hx : natDigits x with
  | nil => exact absurd hx (natDigits_ne_nil x)
  | cons c cs =>
    have hne : c ≠ '/' := by
      obtain ⟨d, hd, rfl⟩ := natDigits_chars x c (by rw [hx]; exact List.mem_cons_self c cs)
      exact (digitChar_not_special d hd).2.1
    have hne2 : ¬ ('/' = c) := fun hh => hne hh.symm
    show List.isPrefixOf ['/', '/'] (c :: (cs ++ ' ' :: natDigits y)) = false
    simp [List.isPrefixOf, hne2]

theorem fmtLine_ne_empty (x y : Nat) : fmtLine x y ≠ "" := by
  intro h
  have hd := congrArg String.data h
  rw [show (fmtLine x y).data = (fmtLine x y).toList from rfl, toList_fmtLine] at hd
  cases hx : natDigits x with
  | nil => exact absurd hx (natDigits_ne_nil x)
  | cons c cs =>
    rw [hx] at hd
    exact List.noConfusion hd

theorem applyLine_parsed (g : GameOfLife) (line xs ys : String) (x y : Nat)
    (hns : startsWith line "//" = false) (hne : line ≠ "")
    (hsp : splitOnce line ' ' = some (xs, ys))
    (hx : parseNat xs = some x) (hy : parseNat ys = some y) :
    applyLine g line
      = some (if y * g.cols + x < g.cells.length
              then { g with cells := g.cells.set (y * g.cols + x) true } else g) := by
  unfold applyLine
  rw [hns, hsp]
  simp only [Bool.false_or, decide_eq_true_eq]
  rw [if_neg hne, hx, hy]
  unfold get_index
  exact (apply_ite some _ _ _).symm

theorem applyLine_fmtLine (h : GameOfLife) (x y : Nat) :
    applyLine h (fmtLine x y)
      = some (if y * h.cols + x < h.cells.length
              then { h with cells := h.cells.set (y * h.cols + x) true } else h) :=
  applyLine_parsed h (fmtLine x y) (natToString x) (natToString y) x y
    (startsWith_fmtLine x y) (fmtLine_ne_empty x y) (splitOnce_fmtLine x y)
    (parseNat_natToString x) (parseNat_natToString y)

theorem foldl_append_filter (f : Nat → String) :
    ∀ (l : List (Nat × Bool)) (acc : List String),
      l.foldl (fun text p => if p.2 then text ++ [f p.1] else text) acc
        = acc ++ (l.filter (fun p => p.2)).map (fun p => f p.1) := by
  intro l
  induction l with
  | nil => simp
  | cons p l' ih =>
    intro acc
    rw [List.foldl_cons]
    cases hp : p.2
    · rw [if_neg (by simp [hp]), ih]
      simp [List.filter_cons, hp]
    · rw [if_pos (by simp [hp]), ih]
      simp [List.filter_cons, hp]

theorem save_to_text_eq (g : GameOfLife) :
    save_to_text g = (g.cells.enum.filter (fun p => p.2)).map
      (fun p => fmtLine (p.1 % g.cols) (p.1 / g.cols)) := by
  unfold save_to_text
  rw [foldl_append_filter (fun i => fmtLine (i % g.cols) (i / g.cols)) g.cells.enum []]
  simp

theorem save_to_text_congr (g₁ g₂ : GameOfLife)
    (hc : g₁.cells = g₂.cells) (hcol : g₁.cols = g₂.cols) :
    save_to_text g₁ = save_to_text g₂ := by
  unfold save_to_text
  simp only [hc, hcol]

theorem foldl_set_guarded_length :
    ∀ (idxs : List Nat) (l : List Bool),
      (idxs.foldl (fun acc i => if i < acc.length then acc.set i true else acc) l).length
        = l.length := by
  intro idxs
  induction idxs with
  | nil => intro l; rfl
  | cons i rest ih =>
    intro l
    rw [List.foldl_cons]
    by_cases hi : i < l.length
    · rw [if_pos hi, ih]
      simp
    · rw [if_neg hi, ih]

theorem load_lines_set :
    ∀ (idxs : List Nat) (h : GameOfLife),
      load_from_text h (idxs.map (fun i => fmtLine (i % h.cols) (i / h.cols)))
        = some { h with
            cells := idxs.foldl (fun acc i =>
              if i < acc.length then acc.set i true else acc) h.cells } := by
  intro idxs
  induction idxs with
  | nil => intro h; rfl
  | cons i rest ih =>
    intro h
    unfold load_from_text
    rw [List.map_cons, List.foldlM_cons, applyLine_fmtLine h (i % h.cols) (i / h.cols)]
    have hidx : (i / h.cols) * h.cols + i % h.cols = i := by
      rw [Nat.mul_comm]
      exact Nat.div_add_mod i h.cols
    rw [hidx]
    have hpush : (if i < h.cells.length then { h with cells := h.cells.set i true } else h)
        = { h with cells := if i < h.cells.length then h.cells.set i true else h.cells } := by
      split <;> rfl
    rw [hpush]
    simp only [Option.bind_eq_bind, Option.some_bind]
    exact ih { h with cells := if i < h.cells.length then h.cells.set i true else h.cells }

theorem mem_liveIdx (l : List Bool) (j : Nat) :
    (j ∈ (l.enum.filter (fun p => p.2)).map (fun p => p.1))
      ↔ (j < l.length ∧ l.getD j false = true) := by
  constructor
  · intro hm
    obtain ⟨p, hp, rfl⟩ := List.mem_map.1 hm
    obtain ⟨hpe, hpt⟩ := List.mem_filter.1 hp
    obtain ⟨i, b⟩ := p
    have hb : b = true := by simpa using hpt
    subst hb
    have hget := List.mk_mem_enum_iff_getElem?.1 hpe
    have hlt : i < l.length := by
      by_contra hge
      rw [List.getElem?_eq_none (by omega)] at hget
      exact Option.noConfusion hget
    refine ⟨hlt, ?_⟩
    rw [List.getD_eq_getElem _ _ hlt]
    rw [List.getElem?_eq_getElem hlt] at hget
    exact Option.some.inj hget
  · rintro ⟨hlt, hget⟩
    apply List.mem_map.2
    refine ⟨(j, true), ?_, rfl⟩
    apply List.mem_filter.2
    refine ⟨List.mk_mem_enum_iff_getElem?.2 ?_, by simp⟩
    rw [List.getElem?_eq_getElem hlt]
    rw [List.getD_eq_getElem _ _ hlt] at hget
    exact congrArg some hget

/-- C7: `save_to_text` emits exactly one line `"<col> <row>"` per live cell
(`x = i % cols` first, `y = i / cols` second), in ascending linear-index
(row-major) order with no header or other output; and deserializing that
text into an all-dead grid of the same dimensions restores exactly the
cells of `g`, so serializing again yields the same text. -/
theorem C7_serialize_roundtrip (g : GameOfLife) (hWF : WF g) :
    save_to_text g = (g.cells.enum.filter (fun p => p.2)).map
      (fun p => fmtLine (p.1 % g.cols) (p.1 / g.cols)) ∧
    (load_from_text (deadGrid g.rows g.cols) (save_to_text g)).map GameOfLife.cells
      = some g.cells ∧
    (load_from_text (deadGrid g.rows g.cols) (save_to_text g)).map save_to_text
      = some (save_to_text g) := by
  obtain ⟨hlen, -, -, -, -⟩ := hWF
  have hsave : save_to_text g
      = ((g.cells.enum.filter (fun p => p.2)).map (fun p => p.1)).map
          (fun i => fmtLine (i % g.cols) (i / g.cols)) := by
    rw [save_to_text_eq, List.map_map]
    rfl
  have hload := load_lines_set ((g.cells.enum.filter (fun p => p.2)).map (fun p => p.1))
    (deadGrid g.rows g.cols)
  simp only [deadGrid_cols] at hload
  have hcells : ((g.cells.enum.filter (fun p => p.2)).map (fun p => p.1)).foldl
      (fun acc i => if i < acc.length then acc.set i true else acc)
      (deadGrid g.rows g.cols).cells = g.cells := by
    apply List.ext_getElem
    · rw [foldl_set_guarded_length, deadGrid_cells, List.length_replicate]
      omega
    · intro j h1 h2
      have hD := foldl_set_guarded_getD
        ((g.cells.enum.filter (fun p => p.2)).map (fun p => p.1))
        (deadGrid g.rows g.cols).cells j
      rw [deadGrid_cells, getD_replicate_false, Bool.false_or,
        List.length_replicate] at hD
      rw [← List.getD_eq_getElem _ false h1, ← List.getD_eq_getElem _ false h2]
      rw [show ((deadGrid g.rows g.cols).cells : List Bool)
          = List.replicate (g.rows * g.cols) false from rfl]
      rw [hD]
      have hj : j < g.cells.length := h2
      have hjRC : decide (j < g.rows * g.cols) = true := by
        simp only [decide_eq_true_eq]
        omega
      rw [hjRC, Bool.and_true]
      cases hcell : g.cells.getD j false
      · simp only [decide_eq_false_iff_not]
        rw [mem_liveIdx]
        rintro ⟨-, hgd⟩
        rw [hcell] at hgd
        exact Bool.noConfusion hgd
      · simp only [decide_eq_true_eq]
        rw [mem_liveIdx]
        exact ⟨hj, hcell⟩
  refine ⟨save_to_text_eq g, ?_, ?_⟩
  · rw [hsave, hload]
    simp only [Option.map_some']
    apply congrArg
    exact hcells
  · rw [hsave, hload]
    simp only [Option.map_some']
    apply congrArg
    rw [← hsave]
    exact save_to_text_congr _ _ hcells rfl

/-- Witness for C7 at a 2×2 grid with live cells at linear indices 0 and 3. -/
theorem C7_serialize_roundtrip_witness :
    WF { deadGrid 2 2 with cells := [true, false, false, true] } ∧
    ((load_from_text
        (deadGrid ({ deadGrid 2 2 with cells := [true, false, false, true] }
          : GameOfLife).rows
          ({ deadGrid 2 2 with cells := [true, false, false, true] } : GameOfLife).cols)
        (save_to_text { deadGrid 2 2 with cells := [true, false, false, true] })).map
      GameOfLife.cells = some [true, false, false, true]) :=
  ⟨by unfold WF; decide,
   by
    have h := (C7_serialize_roundtrip
      { deadGrid 2 2 with cells := [true, false, false, true] }
      (by unfold WF; decide)).2.1
    exact h⟩
